import Mathlib

/-!
Shallow embedding of `src/pytensortools/evaluation/run_evaluator.py`,
restricted to the two evaluators the verification targets:
`WorstDegeneracy._evaluate` (the degeneracy scorer, lines 58-90) and
`PValue._evaluate` (lines 38-55).

Modelling conventions:
* numeric entries and scores live in an arbitrary `LinearOrder` type `K`
  (Python floats modelled as an ordered type; `np.inf` becomes `⊤ : WithTop K`);
* a factor matrix of shape `(mode_size, rank)` is represented by the list of
  its `rank` columns (so `fm[:, p]` is positional lookup and `fm.shape[1]` is
  the list length); for `PValue`, where rows are selected, a factor matrix is
  represented by the list of its rows;
* Python exceptions become the explicit error type `PyError`; the
  constructors `shapeMismatchError`, `invalidModeIndexError` and
  `invalidInputError` come from the specification's error taxonomy and are
  needed to state the error-handling claims — the embedded code itself never
  produces them;
* the external `pytensor.metrics._factor_match_score` (not part of this
  repository) is an abstract parameter `score`; `scipy.stats.ttest_ind` is an
  abstract parameter `ttest` returning the per-component p-values.
-/

namespace RunEvaluator

/-- Errors a call can surface.  `indexError`, `unboundLocal`, `assertionError`
and `valueError` model the Python exceptions the embedded code can actually
raise; the last three constructors are the specification's error taxonomy
(`ShapeMismatchError`, `InvalidModeIndexError`, `InvalidInputError`), which the
code never raises — they are present so that claims about them can be stated. -/
inductive PyError where
  | indexError : PyError
  | unboundLocal : String → PyError
  | assertionError : PyError
  | valueError : PyError
  | shapeMismatchError : PyError
  | invalidModeIndexError : PyError
  | invalidInputError : PyError
deriving DecidableEq, Repr

def exceptDecEq {ε α : Type} [DecidableEq ε] [DecidableEq α] :
    (a b : Except ε α) → Decidable (a = b)
  | Except.error e1, Except.error e2 =>
    if h : e1 = e2 then isTrue (by rw [h]) else isFalse (by intro hh; cases hh; exact h rfl)
  | Except.error _, Except.ok _ => isFalse (by intro h; cases h)
  | Except.ok _, Except.error _ => isFalse (by intro h; cases h)
  | Except.ok a1, Except.ok a2 =>
    if h : a1 = a2 then isTrue (by rw [h]) else isFalse (by intro hh; cases hh; exact h rfl)

instance {ε α : Type} [DecidableEq ε] [DecidableEq α] : DecidableEq (Except ε α) :=
  exceptDecEq

namespace WorstDegeneracy

variable {K : Type}

/-- Embeds `fm[:, p]`: column `p` of a factor matrix represented as a list of
columns.  An out-of-range column index raises `IndexError`. -/
def getColumn (fm : List (List K)) (p : ℕ) : Except PyError (List K) :=
  match fm.get? p with
  | some col => Except.ok col
  | none => Except.error PyError.indexError

/-- Embeds the comprehension
`[fm[:, p] for mode, fm in enumerate(factors) if mode in modes]`
(lines 76-77), processing the factor matrices left to right with `i` the
current value of `mode`. -/
def selectColumnsAux (modes : List ℕ) (p : ℕ) : ℕ → List (List (List K)) → Except PyError (List (List K))
  | _, [] => Except.ok []
  | i, fm :: rest =>
    if i ∈ modes then
      match getColumn fm p with
      | Except.error e => Except.error e
      | Except.ok col =>
        match selectColumnsAux modes p (i + 1) rest with
        | Except.error e => Except.error e
        | Except.ok cols => Except.ok (col :: cols)
    else selectColumnsAux modes p (i + 1) rest

/-- The per-component column selection of lines 76-77, starting at mode 0. -/
def selectColumns (factors : List (List (List K))) (modes : List ℕ) (p : ℕ) :
    Except PyError (List (List K)) :=
  selectColumnsAux modes p 0 factors

/-- Embeds `itertools.permutations(range(R), r=2)` (line 74): all ordered pairs
of distinct indices below `R`, in the iteration order itertools uses
(lexicographic: ascending `p1`, then ascending `p2`). -/
def orderedPairs (R : ℕ) : List (ℕ × ℕ) :=
  (List.range R).flatMap fun p1 =>
    ((List.range R).filter fun p2 => p2 ≠ p1).map fun p2 => (p1, p2)

/-- The constructor arguments of `WorstDegeneracy` (line 60): the optional
mode subset and the flag asking for the worst pair. -/
structure Config where
  modes : Option (List ℕ)
  return_permutation : Bool
deriving DecidableEq, Repr

/-- The dictionary returned by `_evaluate`: the minimum score (`np.inf` is
`⊤`) and, when requested, the worst permutation pair. -/
structure DegeneracyResult (K : Type) where
  min_score : WithTop K
  permutation : Option (ℕ × ℕ)
deriving DecidableEq, Repr

variable [LinearOrder K]

/-- One iteration of the pair loop (lines 76-85): select the two components'
per-mode column lists, score them with the external factor-match score, and
update the running minimum and worst pair when the score is strictly below the
current minimum. -/
def stepPair (score : List (List K) → List (List K) → K)
    (factors : List (List (List K))) (modes : List ℕ)
    (st : WithTop K × Option (ℕ × ℕ)) (pr : ℕ × ℕ) :
    Except PyError (WithTop K × Option (ℕ × ℕ)) :=
  match selectColumns factors modes pr.1 with
  | Except.error e => Except.error e
  | Except.ok f1 =>
    match selectColumns factors modes pr.2 with
    | Except.error e => Except.error e
    | Except.ok f2 =>
      if (score f1 f2 : WithTop K) < st.1 then Except.ok ((score f1 f2 : K), some pr)
      else Except.ok st

/-- The whole pair loop of lines 74-85, folded over the pair list with state
`(min_score, worst pair)`; the worst pair is `none` while `worst_p1` /
`worst_p2` are still unassigned. -/
def scoreLoop (score : List (List K) → List (List K) → K)
    (factors : List (List (List K))) (modes : List ℕ) :
    List (ℕ × ℕ) → WithTop K × Option (ℕ × ℕ) →
    Except PyError (WithTop K × Option (ℕ × ℕ))
  | [], st => Except.ok st
  | pr :: rest, st =>
    match stepPair score factors modes st pr with
    | Except.error e => Except.error e
    | Except.ok st' => scoreLoop score factors modes rest st'

/-- Embeds lines 87-90: build the returned dictionary.  When the permutation
is requested but `worst_p1` was never assigned (no loop iteration improved on
`np.inf`), Python raises an unbound-local error. -/
def finish (return_permutation : Bool) (min_score : WithTop K)
    (worst : Option (ℕ × ℕ)) : Except PyError (DegeneracyResult K) :=
  if return_permutation then
    match worst with
    | some w => Except.ok ⟨min_score, some w⟩
    | none => Except.error (PyError.unboundLocal "worst_p1")
  else Except.ok ⟨min_score, none⟩

/-- Embeds `WorstDegeneracy._evaluate` (lines 65-90).  `factors` is the
decomposition's factor-matrix list; `score f1 f2` stands for
`metrics._factor_match_score(f1, f2, nonnegative=False, weight_penalty=False)[0]`.
Faithful points: `R` is the column count of the *first* factor matrix (line
71, raising `IndexError` on an empty list); the local `modes` is assigned
*only* when `self.modes is None` (lines 69-70), so when an explicit subset is
given and the pair loop runs at least once (`2 ≤ R`, factor list nonempty),
the first comprehension raises an unbound-local error on `modes`. -/
def evalBody (return_permutation : Bool)
    (r : Except PyError (WithTop K × Option (ℕ × ℕ))) :
    Except PyError (DegeneracyResult K) :=
  match r with
  | Except.error e => Except.error e
  | Except.ok st => finish return_permutation st.1 st.2

def evaluate (cfg : Config) (score : List (List K) → List (List K) → K)
    (factors : List (List (List K))) : Except PyError (DegeneracyResult K) :=
  match factors.head? with
  | none => Except.error PyError.indexError
  | some fm0 =>
    match cfg.modes with
    | some _ =>
      if 2 ≤ fm0.length then Except.error (PyError.unboundLocal "modes")
      else finish cfg.return_permutation ⊤ none
    | none =>
      evalBody cfg.return_permutation
        (scoreLoop score factors (List.range factors.length)
          (orderedPairs fm0.length) (⊤, none))

/-- With the default mode subset every mode is selected, so the component-`p`
column list is just column `p` of every factor matrix. -/
def allColumns (factors : List (List (List K))) (p : ℕ) : List (List K) :=
  factors.map fun fm => fm.getD p []

/-- The score the loop computes for the ordered pair `pr` when all modes are
selected: the external factor-match score of the two components' per-mode
column lists. -/
def pairScore (score : List (List K) → List (List K) → K)
    (factors : List (List (List K))) (pr : ℕ × ℕ) : K :=
  score (allColumns factors pr.1) (allColumns factors pr.2)

/-- Pure model of the pair loop once column selection is known to succeed:
fold the running-minimum update over the pair list. -/
def minLoop (pf : ℕ × ℕ → K) : List (ℕ × ℕ) → WithTop K × Option (ℕ × ℕ) →
    WithTop K × Option (ℕ × ℕ)
  | [], st => st
  | pr :: rest, st =>
    minLoop pf rest (if (pf pr : WithTop K) < st.1 then ((pf pr : K), some pr) else st)

end WorstDegeneracy

namespace PValue

variable {K : Type}

/-- The row indices of the samples belonging to class `cl`:
`[i for i, c in enumerate(classes) if c == class_]` (line 53). -/
def classIndices (classes : List ℤ) (cl : ℤ) : List ℕ :=
  (classes.enum.filter fun ic => ic.2 = cl).map fun ic => ic.1

/-- Embeds the fancy-indexing `factors[indices]`: the rows of the factor
matrix at the given positions, raising `IndexError` on an out-of-range row. -/
def rowsAt (fm : List (List K)) : List ℕ → Except PyError (List (List K))
  | [] => Except.ok []
  | i :: rest =>
    match fm.get? i with
    | none => Except.error PyError.indexError
    | some r =>
      match rowsAt fm rest with
      | Except.error e => Except.error e
      | Except.ok rs => Except.ok (r :: rs)

variable [LinearOrder K]

/-- Embeds `min(p_values)` (line 55): the minimum of the per-component
p-values; Python's `min` raises `ValueError` on an empty tuple. -/
def minOfList (l : List K) : Except PyError K :=
  match l.min? with
  | some m => Except.ok m
  | none => Except.error PyError.valueError

/-- Embeds `PValue._evaluate` (lines 45-55).  The factor matrix of the
selected `mode` is fetched first (line 47, `IndexError` when out of range);
`classes` is the class vector (already one-dimensional, as after
`.squeeze()`); `set(classes)` is modelled by `classes.dedup` (Python's set
iteration order is unspecified; only the number of distinct values and the
two resulting groups matter).  `assert len(set(classes)) == 2` (line 51)
raises `AssertionError` unless exactly two distinct classes occur; otherwise
the rows of the two class groups are passed to the external Welch t-test
`ttest` (standing for `ttest_ind(..., equal_var=False).pvalue`, one p-value
per component) and the minimum p-value is returned (`min` of an empty tuple
raises `ValueError`). -/
def evaluate (ttest : List (List K) → List (List K) → List K) (mode : ℕ)
    (factorMatrices : List (List (List K))) (classes : List ℤ) :
    Except PyError K :=
  match factorMatrices.get? mode with
  | none => Except.error PyError.indexError
  | some fm =>
    if (classes.dedup).length = 2 then
      match rowsAt fm (classIndices classes ((classes.dedup).getD 0 0)) with
      | Except.error e => Except.error e
      | Except.ok g0 =>
        match rowsAt fm (classIndices classes ((classes.dedup).getD 1 0)) with
        | Except.error e => Except.error e
        | Except.ok g1 => minOfList (ttest g0 g1)
    else Except.error PyError.assertionError

end PValue

namespace Metrics

/-- Dot product of two vectors (entrywise product over the zipped lists). -/
def dot (v w : List ℝ) : ℝ := ((v.zip w).map fun p => p.1 * p.2).sum

/-- Cosine similarity of two vectors. -/
noncomputable def cosineSimilarity (v w : List ℝ) : ℝ :=
  dot v w / (Real.sqrt (dot v v) * Real.sqrt (dot w w))

/-- Modelled from the spec: the external collaborator
`pytensor.metrics._factor_match_score(f1, f2, nonnegative=False,
weight_penalty=False)[0]` is not part of this repository.  Per the
specification's similarity-measure definition, with these flags it multiplies,
across modes, the cosine similarity between the corresponding vector pairs
(product combination rule, no nonnegativity correction, no weight penalty)
and returns that scalar. -/
noncomputable def factorMatchScore (f1 f2 : List (List ℝ)) : ℝ :=
  ((f1.zip f2).map fun p => cosineSimilarity p.1 p.2).prod

end Metrics

/-- A concrete stand-in for the abstract external score used when a closed
statement needs the embedded evaluator run on a computable score: the constant
zero score. -/
def constZeroScore : List (List ℤ) → List (List ℤ) → ℤ := fun _ _ => 0

/-- A concrete stand-in for the abstract external score used when a closed
statement needs pairs to receive distinct values: the sum over modes of the
dot products of corresponding columns. -/
def dotSumScore : List (List ℤ) → List (List ℤ) → ℤ := fun f1 f2 =>
  ((f1.zip f2).map fun p => ((p.1.zip p.2).map fun q => q.1 * q.2).sum).sum

/-- A concrete stand-in for the abstract external two-sample t-test used when
a closed statement needs the p-value evaluator run on a computable oracle: it
returns two values, one depending on the group sizes and one constant. -/
def diffLenTTest : List (List ℤ) → List (List ℤ) → List ℤ := fun g0 g1 =>
  [(g0.length : ℤ) - (g1.length : ℤ), 7]

end RunEvaluator

/-! ## Lemmas about the pair enumeration -/

namespace RunEvaluator

namespace WorstDegeneracy

theorem length_filter_ne : ∀ (R p1 : ℕ), p1 < R →
    ((List.range R).filter fun p2 => p2 ≠ p1).length = R - 1 := by
  intro R
  induction R with
  | zero => intro p1 h; omega
  | succ R ih =>
    intro p1 h
    rw [List.range_succ, List.filter_append]
    rcases Nat.lt_or_ge p1 R with hlt | hge
    · have hR : (List.filter (fun p2 => decide (p2 ≠ p1)) [R]) = [R] := by
        simp [List.filter_singleton, Nat.ne_of_gt hlt]
      rw [List.length_append, hR, ih p1 hlt]
      simp
      omega
    · have hp1 : p1 = R := by omega
      subst hp1
      have h1 : (List.filter (fun p2 => decide (p2 ≠ p1)) [p1]) = [] := by
        simp [List.filter_singleton]
      have h2 : (List.range p1).filter (fun p2 => decide (p2 ≠ p1)) = List.range p1 := by
        rw [List.filter_eq_self]
        intro a ha
        simp only [decide_eq_true_eq]
        exact Nat.ne_of_lt (List.mem_range.mp ha)
      rw [h1, h2]
      simp

theorem orderedPairs_length (R : ℕ) : (orderedPairs R).length = R * (R - 1) := by
  unfold orderedPairs
  rw [List.length_flatMap]
  simp only [Function.comp_def]
  have h : ((List.range R).map fun p1 =>
      (((List.range R).filter fun p2 => p2 ≠ p1).map fun p2 => ((p1 : ℕ), p2)).length) =
      (List.range R).map fun _ => R - 1 := by
    apply List.map_congr_left
    intro p1 hp1
    rw [List.length_map, length_filter_ne R p1 (List.mem_range.mp hp1)]
  rw [h, List.map_const', List.sum_replicate, List.length_range, smul_eq_mul]

theorem mem_orderedPairs {R : ℕ} {pr : ℕ × ℕ} :
    pr ∈ orderedPairs R ↔ pr.1 < R ∧ pr.2 < R ∧ pr.2 ≠ pr.1 := by
  obtain ⟨a, b⟩ := pr
  simp only [orderedPairs, List.mem_flatMap, List.mem_map, List.mem_filter,
    List.mem_range, decide_eq_true_eq]
  constructor
  · rintro ⟨p1, hp1, p2, ⟨hp2, hne⟩, heq⟩
    cases heq
    exact ⟨hp1, hp2, hne⟩
  · rintro ⟨h1, h2, hne⟩
    exact ⟨a, h1, b, ⟨h2, hne⟩, rfl⟩

theorem orderedPairs_eq_nil {R : ℕ} (h : R < 2) : orderedPairs R = [] := by
  interval_cases R <;> rfl

/-! ## Lemmas about the pair loop when every mode is selected -/

theorem getColumn_ok {K : Type} {fm : List (List K)} {p : ℕ} (h : p < fm.length) :
    getColumn fm p = Except.ok (fm.getD p []) := by
  unfold getColumn
  rw [List.get?_eq_get h, List.getD_eq_get _ _ h]

theorem selectColumnsAux_ok {K : Type} (p : ℕ) :
    ∀ (l : List (List (List K))) (i : ℕ) (ms : List ℕ),
      (∀ fm ∈ l, p < fm.length) →
      (∀ j, i ≤ j → j < i + l.length → j ∈ ms) →
      selectColumnsAux ms p i l = Except.ok (l.map fun fm => fm.getD p []) := by
  intro l
  induction l with
  | nil => intro i ms _ _; rfl
  | cons fm rest ih =>
    intro i ms hlen hms
    have hi : i ∈ ms := hms i le_rfl (by simp)
    unfold selectColumnsAux
    rw [if_pos hi, getColumn_ok (hlen fm (List.mem_cons_self fm rest)),
      ih (i + 1) ms (fun fm' h' => hlen fm' (List.mem_cons_of_mem _ h'))
        (fun j hj1 hj2 => hms j (by omega) (by simp at hj2 ⊢; omega))]
    rfl

theorem selectColumns_all {K : Type} (factors : List (List (List K))) (p : ℕ)
    (h : ∀ fm ∈ factors, p < fm.length) :
    selectColumns factors (List.range factors.length) p =
      Except.ok (allColumns factors p) :=
  selectColumnsAux_ok p factors 0 _ h
    (fun j _ hj2 => List.mem_range.mpr (by omega))

theorem stepPair_ok {K : Type} [LinearOrder K]
    (score : List (List K) → List (List K) → K)
    (factors : List (List (List K))) {pr : ℕ × ℕ}
    (h1 : ∀ fm ∈ factors, pr.1 < fm.length)
    (h2 : ∀ fm ∈ factors, pr.2 < fm.length)
    (st : WithTop K × Option (ℕ × ℕ)) :
    stepPair score factors (List.range factors.length) st pr =
      Except.ok (if ((pairScore score factors pr : K) : WithTop K) < st.1
        then (((pairScore score factors pr : K) : WithTop K), some pr) else st) := by
  unfold stepPair
  rw [selectColumns_all _ _ h1, selectColumns_all _ _ h2]
  show (if ((pairScore score factors pr : K) : WithTop K) < st.1
      then (Except.ok ((((pairScore score factors pr : K) : WithTop K), some pr)) :
        Except PyError (WithTop K × Option (ℕ × ℕ)))
      else Except.ok st) = _
  exact (apply_ite Except.ok _ _ _).symm

theorem scoreLoop_eq_minLoop {K : Type} [LinearOrder K]
    (score : List (List K) → List (List K) → K)
    (factors : List (List (List K))) :
    ∀ (pairs : List (ℕ × ℕ)) (st : WithTop K × Option (ℕ × ℕ)),
      (∀ pr ∈ pairs, ∀ fm ∈ factors, pr.1 < fm.length ∧ pr.2 < fm.length) →
      scoreLoop score factors (List.range factors.length) pairs st =
        Except.ok (minLoop (pairScore score factors) pairs st) := by
  intro pairs
  induction pairs with
  | nil => intro st _; rfl
  | cons pr rest ih =>
    intro st hmem
    unfold scoreLoop minLoop
    rw [stepPair_ok score factors
      (fun fm hm => (hmem pr (List.mem_cons_self pr rest) fm hm).1)
      (fun fm hm => (hmem pr (List.mem_cons_self pr rest) fm hm).2) st]
    exact ih _ (fun pr' h' => hmem pr' (List.mem_cons_of_mem _ h'))

theorem scoreLoop_cons_error {K : Type} [LinearOrder K]
    {score : List (List K) → List (List K) → K}
    {factors : List (List (List K))} {ms : List ℕ}
    {st : WithTop K × Option (ℕ × ℕ)} {pr : ℕ × ℕ} {rest : List (ℕ × ℕ)}
    {e : PyError} (h : stepPair score factors ms st pr = Except.error e) :
    scoreLoop score factors ms (pr :: rest) st = Except.error e := by
  unfold scoreLoop
  rw [h]

theorem scoreLoop_append_ok {K : Type} [LinearOrder K]
    {score : List (List K) → List (List K) → K}
    {factors : List (List (List K))} {ms : List ℕ} :
    ∀ {l1 : List (ℕ × ℕ)} (l2 : List (ℕ × ℕ))
      {st st' : WithTop K × Option (ℕ × ℕ)},
      scoreLoop score factors ms l1 st = Except.ok st' →
      scoreLoop score factors ms (l1 ++ l2) st =
        scoreLoop score factors ms l2 st' := by
  intro l1
  induction l1 with
  | nil =>
    intro l2 st st' h
    cases h
    rfl
  | cons pr rest ih =>
    intro l2 st st' h
    rw [List.cons_append]
    simp only [scoreLoop] at h ⊢
    cases hsp : stepPair score factors ms st pr with
    | error e =>
      rw [hsp] at h
      exact Except.noConfusion h
    | ok st1 =>
      rw [hsp] at h
      exact ih l2 h

theorem minLoop_fst_le {K : Type} [LinearOrder K] (pf : ℕ × ℕ → K) :
    ∀ (pairs : List (ℕ × ℕ)) (st : WithTop K × Option (ℕ × ℕ)),
      (minLoop pf pairs st).1 ≤ st.1 := by
  intro pairs
  induction pairs with
  | nil => intro st; exact le_rfl
  | cons pr rest ih =>
    intro st
    unfold minLoop
    rcases lt_or_ge ((pf pr : WithTop K)) st.1 with h | h
    · rw [if_pos h]; exact le_trans (ih _) (le_of_lt h)
    · rw [if_neg (not_lt.mpr h)]; exact ih _

theorem minLoop_le_of_mem {K : Type} [LinearOrder K] (pf : ℕ × ℕ → K) :
    ∀ (pairs : List (ℕ × ℕ)) (st : WithTop K × Option (ℕ × ℕ)) (pr : ℕ × ℕ),
      pr ∈ pairs → (minLoop pf pairs st).1 ≤ (pf pr : WithTop K) := by
  intro pairs
  induction pairs with
  | nil => intro st pr h; cases h
  | cons a rest ih =>
    intro st pr h
    rcases List.mem_cons.mp h with rfl | hmem
    · unfold minLoop
      rcases lt_or_ge ((pf pr : WithTop K)) st.1 with hc | hc
      · rw [if_pos hc]; exact minLoop_fst_le pf rest _
      · rw [if_neg (not_lt.mpr hc)]; exact le_trans (minLoop_fst_le pf rest st) hc
    · unfold minLoop
      split
      · exact ih _ pr hmem
      · exact ih _ pr hmem

theorem minLoop_attained {K : Type} [LinearOrder K] (pf : ℕ × ℕ → K) :
    ∀ (pairs : List (ℕ × ℕ)) (st : WithTop K × Option (ℕ × ℕ)),
      minLoop pf pairs st = st ∨
        ∃ pr ∈ pairs, minLoop pf pairs st = ((pf pr : WithTop K), some pr) := by
  intro pairs
  induction pairs with
  | nil => intro st; exact Or.inl rfl
  | cons a rest ih =>
    intro st
    unfold minLoop
    rcases lt_or_ge ((pf a : WithTop K)) st.1 with hc | hc
    · rw [if_pos hc]
      rcases ih (((pf a : K) : WithTop K), some a) with h | ⟨pr, hpr, h⟩
      · exact Or.inr ⟨a, List.mem_cons_self a rest, h⟩
      · exact Or.inr ⟨pr, List.mem_cons_of_mem _ hpr, h⟩
    · rw [if_neg (not_lt.mpr hc)]
      rcases ih st with h | ⟨pr, hpr, h⟩
      · exact Or.inl h
      · exact Or.inr ⟨pr, List.mem_cons_of_mem _ hpr, h⟩

/-! ## The mode-membership filter ignores the order of the modes list -/

theorem evaluate_cons_none {K : Type} [LinearOrder K]
    (score : List (List K) → List (List K) → K)
    (fm0 : List (List K)) (tail : List (List (List K))) (ret : Bool) :
    evaluate ⟨none, ret⟩ score (fm0 :: tail) =
      evalBody ret (scoreLoop score (fm0 :: tail)
        (List.range (fm0 :: tail).length) (orderedPairs fm0.length) (⊤, none)) :=
  rfl

theorem selectColumnsAux_congr {K : Type} {ms₁ ms₂ : List ℕ}
    (h : ∀ m, m ∈ ms₁ ↔ m ∈ ms₂) (p : ℕ) :
    ∀ (l : List (List (List K))) (i : ℕ),
      selectColumnsAux ms₁ p i l = selectColumnsAux ms₂ p i l := by
  intro l
  induction l with
  | nil => intro i; rfl
  | cons fm rest ih =>
    intro i
    unfold selectColumnsAux
    by_cases hi : i ∈ ms₂
    · rw [if_pos ((h i).mpr hi), if_pos hi, ih (i + 1)]
    · rw [if_neg (fun hh => hi ((h i).mp hh)), if_neg hi]
      exact ih (i + 1)

theorem stepPair_congr {K : Type} [LinearOrder K]
    (score : List (List K) → List (List K) → K)
    (factors : List (List (List K))) {ms₁ ms₂ : List ℕ}
    (h : ∀ m, m ∈ ms₁ ↔ m ∈ ms₂) (st : WithTop K × Option (ℕ × ℕ)) (pr : ℕ × ℕ) :
    stepPair score factors ms₁ st pr = stepPair score factors ms₂ st pr := by
  unfold stepPair selectColumns
  rw [selectColumnsAux_congr h pr.1 factors 0, selectColumnsAux_congr h pr.2 factors 0]

theorem scoreLoop_congr {K : Type} [LinearOrder K]
    (score : List (List K) → List (List K) → K)
    (factors : List (List (List K))) {ms₁ ms₂ : List ℕ}
    (h : ∀ m, m ∈ ms₁ ↔ m ∈ ms₂) :
    ∀ (pairs : List (ℕ × ℕ)) (st : WithTop K × Option (ℕ × ℕ)),
      scoreLoop score factors ms₁ pairs st = scoreLoop score factors ms₂ pairs st := by
  intro pairs
  induction pairs with
  | nil => intro st; rfl
  | cons pr rest ih =>
    intro st
    unfold scoreLoop
    rw [stepPair_congr score factors h st pr]
    cases stepPair score factors ms₂ st pr with
    | error e => rfl
    | ok st' => exact ih st'

/-! ## Claim theorems -/

/-- C1: for every decomposition with rank at least 2 and no mode subset
specified (`modes = none`), and for every external factor-match score
function (standing for `_factor_match_score(..., nonnegative=False,
weight_penalty=False)[0]`), the degeneracy scorer succeeds and returns the
minimum, over all ordered pairs of distinct component indices below the rank,
of the score of the two components' per-mode column lists; and a pair
attaining that minimum is reported exactly when the return-pair flag is
set. -/
theorem claim1_min_over_ordered_pairs {K : Type} [LinearOrder K]
    (score : List (List K) → List (List K) → K)
    (factors : List (List (List K))) (R : ℕ) (ret : Bool)
    (hne : factors ≠ []) (hwf : ∀ fm ∈ factors, fm.length = R) (hR : 2 ≤ R) :
    ∃ res : DegeneracyResult K,
      evaluate ⟨none, ret⟩ score factors = Except.ok res ∧
      (∀ pr ∈ orderedPairs R,
        res.min_score ≤ ((pairScore score factors pr : K) : WithTop K)) ∧
      ∃ pr ∈ orderedPairs R,
        res.min_score = ((pairScore score factors pr : K) : WithTop K) ∧
        res.permutation = (if ret then some pr else none) := by
  obtain ⟨fm0, rest, rfl⟩ := List.exists_cons_of_ne_nil hne
  have hR0 : fm0.length = R := hwf fm0 (List.mem_cons_self _ _)
  have hloop := scoreLoop_eq_minLoop score (fm0 :: rest) (orderedPairs R) (⊤, none)
    (fun pr hpr fm hfm => by
      rw [hwf fm hfm]
      exact ⟨(mem_orderedPairs.mp hpr).1, (mem_orderedPairs.mp hpr).2.1⟩)
  have heval := evaluate_cons_none score fm0 rest ret
  rw [hR0, hloop] at heval
  have h01 : ((0 : ℕ), (1 : ℕ)) ∈ orderedPairs R :=
    mem_orderedPairs.mpr ⟨by omega, by omega, by omega⟩
  rcases minLoop_attained (pairScore score (fm0 :: rest)) (orderedPairs R) (⊤, none)
      with hA | ⟨pr, hpr, hA⟩
  · exfalso
    have hle := minLoop_le_of_mem (pairScore score (fm0 :: rest)) (orderedPairs R)
      (⊤, none) _ h01
    rw [hA] at hle
    exact absurd (top_le_iff.mp hle) (WithTop.coe_ne_top)
  · rw [hA] at heval
    refine ⟨⟨((pairScore score (fm0 :: rest) pr : K) : WithTop K),
      if ret then some pr else none⟩, ?_, ?_, ?_⟩
    · rw [heval]
      cases ret <;> simp [evalBody, finish]
    · intro pr' hpr'
      have hle := minLoop_le_of_mem (pairScore score (fm0 :: rest)) (orderedPairs R)
        (⊤, none) pr' hpr'
      rw [hA] at hle
      exact hle
    · exact ⟨pr, hpr, rfl, rfl⟩

/-- Witness for C1: the theorem applied to a concrete one-mode rank-2
decomposition with the dot-product score. -/
theorem claim1_min_over_ordered_pairs_witness :
    ∃ res : DegeneracyResult ℤ,
      evaluate ⟨none, true⟩ dotSumScore [[[1, 0], [0, 2]]] = Except.ok res ∧
      (∀ pr ∈ orderedPairs 2,
        res.min_score ≤ ((pairScore dotSumScore [[[1, 0], [0, 2]]] pr : ℤ) : WithTop ℤ)) ∧
      ∃ pr ∈ orderedPairs 2,
        res.min_score = ((pairScore dotSumScore [[[1, 0], [0, 2]]] pr : ℤ) : WithTop ℤ) ∧
        res.permutation = (if true then some pr else none) :=
  claim1_min_over_ordered_pairs dotSumScore [[[1, 0], [0, 2]]] 2 true
    (by decide) (by decide) (by decide)

/-- C2 (code bug): the evaluator stores the explicitly given mode subset but
never binds the local `modes` from it (`modes` is assigned only when
`self.modes is None`), so a call with an explicit mode subset — here the
valid subset `[0, 1]` of a two-mode rank-2 decomposition — does not return a
score: it raises an unbound-local error on `modes` at the first loop
iteration. -/
theorem claim2_explicit_modes_unbound_local :
    evaluate ⟨some [0, 1], false⟩ constZeroScore
      [[[1, 0], [0, 1]], [[2, 0], [0, 2]]] =
      Except.error (PyError.unboundLocal "modes") := by
  decide

/-- C3 (counterexample): with factor matrices of ranks 3 and 4 across two
modes — a rank disagreement among the selected modes — the degeneracy scorer
does not raise `ShapeMismatchError`: it does not fail at all, but silently
scores using the first matrix's rank and returns a result. -/
theorem claim3_mismatch_no_error_cex :
    evaluate ⟨none, false⟩ constZeroScore
        [[[1], [2], [3]], [[1], [2], [3], [4]]] =
      Except.ok ⟨((0 : ℤ) : WithTop ℤ), none⟩ ∧
    evaluate ⟨none, false⟩ constZeroScore
        [[[1], [2], [3]], [[1], [2], [3], [4]]] ≠
      Except.error PyError.shapeMismatchError := by
  decide

/-- C3 (amended): the scorer performs no rank-agreement check.  It reads the
rank `R` from the first factor matrix only.  With ranks 3 and 4 across two
modes: when the rank-3 matrix comes first, the extra column of the other
matrix is silently ignored and a result is returned; when the rank-4 matrix
comes first, the scorer fails with an `IndexError` raised by column indexing
during the pair loop (after scoring has already begun), not with a
`ShapeMismatchError` before scoring. -/
theorem claim3_amended_no_rank_check {K : Type} [LinearOrder K]
    (score : List (List K) → List (List K) → K)
    (c0 c1 c2 d0 d1 d2 d3 : List K) :
    (∃ res : DegeneracyResult K,
      evaluate ⟨none, false⟩ score [[c0, c1, c2], [d0, d1, d2, d3]] =
        Except.ok res) ∧
    evaluate ⟨none, false⟩ score [[d0, d1, d2, d3], [c0, c1, c2]] =
      Except.error PyError.indexError := by
  constructor
  · have hb : ∀ pr ∈ orderedPairs 3, ∀ fm ∈ [[c0, c1, c2], [d0, d1, d2, d3]],
        pr.1 < fm.length ∧ pr.2 < fm.length := by
      intro pr hpr fm hfm
      obtain ⟨h1, h2, _⟩ := mem_orderedPairs.mp hpr
      rcases List.mem_cons.mp hfm with rfl | hfm
      · exact ⟨h1, h2⟩
      · rcases List.mem_cons.mp hfm with rfl | hfm
        · constructor <;> (simp only [List.length_cons, List.length_nil]; omega)
        · cases hfm
    have hloop := scoreLoop_eq_minLoop score [[c0, c1, c2], [d0, d1, d2, d3]]
      (orderedPairs 3) (⊤, none) hb
    refine ⟨⟨(minLoop (pairScore score [[c0, c1, c2], [d0, d1, d2, d3]])
      (orderedPairs 3) (⊤, none)).1, none⟩, ?_⟩
    rw [evaluate_cons_none score [c0, c1, c2] [[d0, d1, d2, d3]] false]
    rw [show ([c0, c1, c2] : List (List K)).length = 3 from rfl]
    rw [hloop]
    rfl
  · have hb : ∀ pr ∈ [((0 : ℕ), (1 : ℕ)), (0, 2)], ∀ fm ∈ [[d0, d1, d2, d3], [c0, c1, c2]],
        pr.1 < fm.length ∧ pr.2 < fm.length := by
      intro pr hpr fm hfm
      rcases List.mem_cons.mp hpr with rfl | hpr
      · rcases List.mem_cons.mp hfm with rfl | hfm
        · exact ⟨by simp, by simp⟩
        · rcases List.mem_cons.mp hfm with rfl | hfm
          · exact ⟨by simp, by simp⟩
          · cases hfm
      · rcases List.mem_cons.mp hpr with rfl | hpr
        · rcases List.mem_cons.mp hfm with rfl | hfm
          · exact ⟨by simp, by simp⟩
          · rcases List.mem_cons.mp hfm with rfl | hfm
            · exact ⟨by simp, by simp⟩
            · cases hfm
        · cases hpr
    have h2ok := scoreLoop_eq_minLoop score [[d0, d1, d2, d3], [c0, c1, c2]]
      [(0, 1), (0, 2)] (⊤, none) hb
    have hstep : ∀ st : WithTop K × Option (ℕ × ℕ),
        stepPair score [[d0, d1, d2, d3], [c0, c1, c2]]
          (List.range [[d0, d1, d2, d3], [c0, c1, c2]].length) st (0, 3) =
          Except.error PyError.indexError := fun st => rfl
    rw [evaluate_cons_none score [d0, d1, d2, d3] [[c0, c1, c2]] false]
    rw [show ([d0, d1, d2, d3] : List (List K)).length = 4 from rfl]
    rw [show orderedPairs 4 = [((0 : ℕ), (1 : ℕ)), (0, 2)] ++
      ((0, 3) :: [(1, 0), (1, 2), (1, 3), (2, 0), (2, 1), (2, 3), (3, 0), (3, 1), (3, 2)]) from rfl]
    rw [scoreLoop_append_ok ((0, 3) ::
      [(1, 0), (1, 2), (1, 3), (2, 0), (2, 1), (2, 3), (3, 0), (3, 1), (3, 2)]) h2ok]
    rw [scoreLoop_cons_error (hstep _)]
    rfl

/-- C4 (counterexample): a mode subset containing the out-of-range index 5 on
a two-mode decomposition does not produce `InvalidModeIndexError`; the call
fails with the unbound-local error on `modes` instead (no mode-index
validation exists in the code). -/
theorem claim4_invalid_index_cex :
    evaluate ⟨some [5], true⟩ constZeroScore [[[1], [2]], [[3], [4]]] =
      Except.error (PyError.unboundLocal "modes") ∧
    evaluate ⟨some [5], true⟩ constZeroScore [[[1], [2]], [[3], [4]]] ≠
      Except.error PyError.invalidModeIndexError := by
  decide

/-- C4 (amended): whenever an explicit mode subset is supplied — whether its
indices are in range or not — and the rank (column count of the first factor
matrix) is at least 2, the scorer fails with the unbound-local error on
`modes`, because the local `modes` is only assigned when no subset is
given. -/
theorem claim4_amended_unbound_local {K : Type} [LinearOrder K]
    (score : List (List K) → List (List K) → K)
    (factors : List (List (List K))) (fm0 : List (List K))
    (ms : List ℕ) (ret : Bool)
    (hhead : factors.head? = some fm0) (hR : 2 ≤ fm0.length) :
    evaluate ⟨some ms, ret⟩ score factors =
      Except.error (PyError.unboundLocal "modes") := by
  cases factors with
  | nil => cases hhead
  | cons a tail =>
    have ha : a = fm0 := by simpa using hhead
    subst ha
    show (if 2 ≤ a.length then Except.error (PyError.unboundLocal "modes")
      else finish ret ⊤ none) = _
    rw [if_pos hR]

/-- Witness for C4 (amended): a subset referencing mode 7 of a one-mode
rank-2 decomposition fails with the unbound-local error. -/
theorem claim4_amended_unbound_local_witness :
    evaluate ⟨some [7], true⟩ constZeroScore [[[1], [2]]] =
      Except.error (PyError.unboundLocal "modes") :=
  claim4_amended_unbound_local constZeroScore [[[1], [2]]] [[1], [2]] [7] true
    rfl (by decide)

/-- C5 (counterexample): for a rank-1 decomposition the scorer does not
exhibit one single behavior for both values of the return-pair flag, and it
never raises `InvalidInputError`: with the flag unset it returns the no-op
result `+inf`, but with the flag set it fails with the unbound-local error on
`worst_p1`. -/
theorem claim5_rank_one_cex :
    evaluate ⟨none, false⟩ constZeroScore [[[1, 2]]] =
      Except.ok ⟨(⊤ : WithTop ℤ), none⟩ ∧
    evaluate ⟨none, true⟩ constZeroScore [[[1, 2]]] =
      Except.error (PyError.unboundLocal "worst_p1") ∧
    evaluate ⟨none, true⟩ constZeroScore [[[1, 2]]] ≠
      Except.error PyError.invalidInputError := by
  decide

/-- C5 (amended): for every decomposition of rank below 2 (no distinct
component pairs) the pair loop never runs, so — for either value of the mode
subset field — the scorer returns score `+inf` when the return-pair flag is
unset, and fails with the unbound-local error on `worst_p1` when the flag is
set: the behavior differs between the two flag values. -/
theorem claim5_amended_rank_lt_two {K : Type} [LinearOrder K]
    (score : List (List K) → List (List K) → K)
    (factors : List (List (List K))) (fm0 : List (List K))
    (m : Option (List ℕ))
    (hhead : factors.head? = some fm0) (hR : fm0.length < 2) :
    evaluate ⟨m, false⟩ score factors = Except.ok ⟨⊤, none⟩ ∧
    evaluate ⟨m, true⟩ score factors =
      Except.error (PyError.unboundLocal "worst_p1") := by
  cases factors with
  | nil => cases hhead
  | cons a tail =>
    have ha : a = fm0 := by simpa using hhead
    subst ha
    have hop : orderedPairs a.length = [] := orderedPairs_eq_nil hR
    cases m with
    | some ms =>
      constructor
      · show (if 2 ≤ a.length then Except.error (PyError.unboundLocal "modes")
          else finish false ⊤ none) = _
        rw [if_neg (by omega)]
        rfl
      · show (if 2 ≤ a.length then Except.error (PyError.unboundLocal "modes")
          else finish true ⊤ none) = _
        rw [if_neg (by omega)]
        rfl
    | none =>
      constructor
      · rw [evaluate_cons_none score a tail false, hop]
        rfl
      · rw [evaluate_cons_none score a tail true, hop]
        rfl

/-- Witness for C5 (amended): the two flag behaviors at a concrete rank-1
decomposition. -/
theorem claim5_amended_rank_lt_two_witness :
    evaluate ⟨none, false⟩ constZeroScore [[[5, 6]]] =
      Except.ok ⟨(⊤ : WithTop ℤ), none⟩ ∧
    evaluate ⟨none, true⟩ constZeroScore [[[5, 6]]] =
      Except.error (PyError.unboundLocal "worst_p1") :=
  claim5_amended_rank_lt_two constZeroScore [[[5, 6]]] [[5, 6]] none
    rfl (by decide)

/-- C6: the pair enumeration of the degeneracy scorer (line 74,
`itertools.permutations(range(R), r=2)`, embedded as `orderedPairs R`, over
which `evaluate` folds its score loop) visits exactly `R * (R - 1)` ordered
pairs for rank `R ≥ 2`, never a self-pair `(p, p)`, and every ordered pair of
distinct indices below `R` is visited. -/
theorem claim6_pair_count_no_self_pairs (R : ℕ) (hR : 2 ≤ R) :
    (orderedPairs R).length = R * (R - 1) ∧
    (∀ pr ∈ orderedPairs R, pr.1 ≠ pr.2) ∧
    (∀ p1 p2 : ℕ, p1 < R → p2 < R → p1 ≠ p2 → (p1, p2) ∈ orderedPairs R) := by
  refine ⟨orderedPairs_length R, ?_, ?_⟩
  · intro pr hpr
    exact fun hh => (mem_orderedPairs.mp hpr).2.2 hh.symm
  · intro p1 p2 h1 h2 hne
    exact mem_orderedPairs.mpr ⟨h1, h2, fun hh => hne hh.symm⟩

/-- Witness for C6: the pair enumeration at rank 3. -/
theorem claim6_pair_count_no_self_pairs_witness :
    (orderedPairs 3).length = 3 * (3 - 1) ∧
    (∀ pr ∈ orderedPairs 3, pr.1 ≠ pr.2) ∧
    (∀ p1 p2 : ℕ, p1 < 3 → p2 < 3 → p1 ≠ p2 → (p1, p2) ∈ orderedPairs 3) :=
  claim6_pair_count_no_self_pairs 3 (by decide)

/-- C7 (counterexample): "scoring" with a mode subset equal to all modes in
natural order does not yield a minimum score at all — calling the scorer with
the explicit subset `[0, 1]` of a two-mode rank-2 decomposition fails with
the unbound-local error on `modes`, and so does the shuffled subset
`[1, 0]`. -/
theorem claim7_explicit_subset_cex :
    evaluate ⟨some [0, 1], true⟩ dotSumScore [[[1, 0], [0, 1]], [[1, 1], [2, 1]]] =
      Except.error (PyError.unboundLocal "modes") ∧
    evaluate ⟨some [1, 0], true⟩ dotSumScore [[[1, 0], [0, 1]], [[1, 1], [2, 1]]] =
      Except.error (PyError.unboundLocal "modes") := by
  decide

/-- C7 (amended): the order of the modes within a subset cannot affect any
result.  The pair loop consumes a bound modes list only through membership
tests, so permuting the list leaves the loop's outcome unchanged; and at the
evaluator entry point any two explicitly given subsets — in particular a
natural-order subset and a shuffle of it — produce identical outcomes (both
fail with the unbound-local error on `modes` whenever the rank is at least 2,
see C2/C4). -/
theorem claim7_amended_order_invariant {K : Type} [LinearOrder K]
    (score : List (List K) → List (List K) → K)
    (factors : List (List (List K))) (ms₁ ms₂ : List ℕ)
    (pairs : List (ℕ × ℕ)) (st : WithTop K × Option (ℕ × ℕ)) (ret : Bool)
    (hperm : ms₁.Perm ms₂) :
    scoreLoop score factors ms₁ pairs st = scoreLoop score factors ms₂ pairs st ∧
    evaluate ⟨some ms₁, ret⟩ score factors = evaluate ⟨some ms₂, ret⟩ score factors := by
  constructor
  · exact scoreLoop_congr score factors (fun m => hperm.mem_iff) pairs st
  · unfold evaluate
    cases factors.head? with
    | none => rfl
    | some fm0 => rfl

/-- Witness for C7 (amended): the natural-order modes list `[0, 1]` and its
shuffle `[1, 0]` give the same loop result and the same evaluator outcome on
a concrete two-mode rank-2 decomposition. -/
theorem claim7_amended_order_invariant_witness :
    scoreLoop dotSumScore [[[1, 2], [2, 1]], [[1, 1], [1, 3]]] [0, 1]
        (orderedPairs 2) (⊤, none) =
      scoreLoop dotSumScore [[[1, 2], [2, 1]], [[1, 1], [1, 3]]] [1, 0]
        (orderedPairs 2) (⊤, none) ∧
    evaluate ⟨some [0, 1], false⟩ dotSumScore [[[1, 2], [2, 1]], [[1, 1], [1, 3]]] =
      evaluate ⟨some [1, 0], false⟩ dotSumScore [[[1, 2], [2, 1]], [[1, 1], [1, 3]]] :=
  claim7_amended_order_invariant dotSumScore [[[1, 2], [2, 1]], [[1, 1], [1, 3]]]
    [0, 1] [1, 0] (orderedPairs 2) (⊤, none) false (by decide)

/-- C8: on the known input with rank 2 and two modes, where mode-0 columns
are `[1,0]` and `[0,1]` (orthogonal, cosine similarity 0) and mode-1 columns
are both `[1,1]` (cosine similarity 1), the degeneracy scorer with the
product-of-cosines factor-match score returns worst score 0 and reports the
worst pair `(0, 1)` (one of the two tied pairs `(0,1)` / `(1,0)`). -/
theorem claim8_known_input :
    Metrics.cosineSimilarity [1, 0] [0, 1] = 0 ∧
    Metrics.cosineSimilarity [1, 1] [1, 1] = 1 ∧
    evaluate ⟨none, true⟩ Metrics.factorMatchScore
        [[[1, 0], [0, 1]], [[1, 1], [1, 1]]] =
      Except.ok ⟨((0 : ℝ) : WithTop ℝ), some (0, 1)⟩ := by
  have hdot01 : Metrics.dot [1, 0] [0, 1] = 0 := by
    simp [Metrics.dot]
  have hdot10 : Metrics.dot [0, 1] [1, 0] = 0 := by
    simp [Metrics.dot]
  have hdot11 : Metrics.dot [1, 1] [1, 1] = 2 := by
    norm_num [Metrics.dot]
  have hcos01 : Metrics.cosineSimilarity [1, 0] [0, 1] = 0 := by
    simp [Metrics.cosineSimilarity, hdot01]
  have hcos10 : Metrics.cosineSimilarity [0, 1] [1, 0] = 0 := by
    simp [Metrics.cosineSimilarity, hdot10]
  have hcos11 : Metrics.cosineSimilarity [1, 1] [1, 1] = 1 := by
    simp only [Metrics.cosineSimilarity, hdot11]
    rw [Real.mul_self_sqrt (by norm_num : (0 : ℝ) ≤ 2)]
    norm_num
  have hp01 : pairScore Metrics.factorMatchScore
      [[[(1 : ℝ), 0], [0, 1]], [[1, 1], [1, 1]]] (0, 1) = 0 := by
    show Metrics.factorMatchScore [[1, 0], [1, 1]] [[0, 1], [1, 1]] = 0
    simp [Metrics.factorMatchScore, hcos01, hcos11]
  have hp10 : pairScore Metrics.factorMatchScore
      [[[(1 : ℝ), 0], [0, 1]], [[1, 1], [1, 1]]] (1, 0) = 0 := by
    show Metrics.factorMatchScore [[0, 1], [1, 1]] [[1, 0], [1, 1]] = 0
    simp [Metrics.factorMatchScore, hcos10, hcos11]
  refine ⟨hcos01, hcos11, ?_⟩
  have hb : ∀ pr ∈ orderedPairs 2, ∀ fm ∈ [[[(1 : ℝ), 0], [0, 1]], [[1, 1], [1, 1]]],
      pr.1 < fm.length ∧ pr.2 < fm.length := by
    intro pr hpr fm hfm
    obtain ⟨h1, h2, _⟩ := mem_orderedPairs.mp hpr
    rcases List.mem_cons.mp hfm with rfl | hfm
    · exact ⟨h1, h2⟩
    · rcases List.mem_cons.mp hfm with rfl | hfm
      · exact ⟨h1, h2⟩
      · cases hfm
  have hloop := scoreLoop_eq_minLoop Metrics.factorMatchScore
    [[[(1 : ℝ), 0], [0, 1]], [[1, 1], [1, 1]]] (orderedPairs 2) (⊤, none) hb
  have hmin : minLoop (pairScore Metrics.factorMatchScore
      [[[(1 : ℝ), 0], [0, 1]], [[1, 1], [1, 1]]]) (orderedPairs 2) (⊤, none) =
      (((0 : ℝ) : WithTop ℝ), some (0, 1)) := by
    rw [show orderedPairs 2 = [((0 : ℕ), (1 : ℕ)), (1, 0)] from rfl]
    unfold minLoop
    rw [hp01, if_pos (WithTop.coe_lt_top (0 : ℝ))]
    unfold minLoop
    rw [hp10, if_neg (lt_irrefl _)]
    rfl
  rw [evaluate_cons_none Metrics.factorMatchScore [[(1 : ℝ), 0], [0, 1]]
    [[[1, 1], [1, 1]]] true]
  rw [show ([[(1 : ℝ), 0], [0, 1]] : List (List ℝ)).length = 2 from rfl]
  rw [hloop, hmin]
  rfl

/-- C9: the degeneracy scorer is deterministic — two calls with an identical
decomposition, mode subset and return-pair flag (and the same external score
function) produce identical results. -/
theorem claim9_deterministic {K : Type} [LinearOrder K]
    (score : List (List K) → List (List K) → K)
    (factors : List (List (List K))) (cfg₁ cfg₂ : Config)
    (h1 : cfg₁.modes = cfg₂.modes)
    (h2 : cfg₁.return_permutation = cfg₂.return_permutation) :
    evaluate cfg₁ score factors = evaluate cfg₂ score factors := by
  obtain ⟨m1, r1⟩ := cfg₁
  obtain ⟨m2, r2⟩ := cfg₂
  cases h1
  cases h2
  rfl

/-- Witness for C9: determinism at a concrete two-mode decomposition. -/
theorem claim9_deterministic_witness :
    evaluate ⟨none, true⟩ dotSumScore [[[1, 2], [2, 1]], [[1, 1], [1, 3]]] =
      evaluate ⟨none, true⟩ dotSumScore [[[1, 2], [2, 1]], [[1, 1], [1, 3]]] :=
  claim9_deterministic dotSumScore [[[1, 2], [2, 1]], [[1, 1], [1, 3]]]
    ⟨none, true⟩ ⟨none, true⟩ rfl rfl

end WorstDegeneracy

namespace PValue

/-- C10: the p-value evaluator requires exactly two distinct class labels.
For every external t-test oracle (standing for the per-component p-values of
`ttest_ind(..., equal_var=False)`), with the selected mode's factor matrix
present: when the class vector has a number of distinct values other than
two, it fails with an assertion failure, and the result does not depend on
the t-test oracle at all (no p-value is computed); when exactly two classes
occur, it returns the minimum over components of the oracle's p-values for
the two class groups of the selected mode's factor matrix. -/
theorem claim10_two_classes_min_pvalue {K : Type} [LinearOrder K]
    (ttest ttest' : List (List K) → List (List K) → List K) (mode : ℕ)
    (factorMatrices : List (List (List K))) (classes : List ℤ)
    (fm : List (List K))
    (hmode : factorMatrices.get? mode = some fm) :
    ((classes.dedup).length ≠ 2 →
      evaluate ttest mode factorMatrices classes =
        Except.error PyError.assertionError ∧
      evaluate ttest mode factorMatrices classes =
        evaluate ttest' mode factorMatrices classes) ∧
    ((classes.dedup).length = 2 →
      ∀ g0 g1 : List (List K),
        rowsAt fm (classIndices classes ((classes.dedup).getD 0 0)) = Except.ok g0 →
        rowsAt fm (classIndices classes ((classes.dedup).getD 1 0)) = Except.ok g1 →
        ∀ m : K, (ttest g0 g1).min? = some m →
          evaluate ttest mode factorMatrices classes = Except.ok m) := by
  constructor
  · intro hne
    constructor
    · simp only [evaluate, hmode]
      rw [if_neg hne]
    · simp only [evaluate, hmode]
      rw [if_neg hne, if_neg hne]
  · intro h2 g0 g1 hg0 hg1 m hm
    simp only [evaluate, hmode]
    rw [if_pos h2, hg0, hg1]
    show minOfList (ttest g0 g1) = Except.ok m
    unfold minOfList
    rw [hm]

/-- Witness for C10: on a three-sample factor matrix with classes
`[5, 5, 6]` (exactly two distinct labels) and a concrete oracle the evaluator
returns the minimum oracle value; with classes `[5, 5, 5]` it fails with the
assertion failure. -/
theorem claim10_two_classes_min_pvalue_witness :
    evaluate diffLenTTest 0 [[[1, 1], [2, 2], [3, 3]]] [5, 5, 6] =
      Except.ok 1 ∧
    evaluate diffLenTTest 0 [[[1, 1], [2, 2], [3, 3]]] [5, 5, 5] =
      Except.error PyError.assertionError :=
  ⟨(claim10_two_classes_min_pvalue diffLenTTest diffLenTTest 0
      [[[1, 1], [2, 2], [3, 3]]] [5, 5, 6] [[1, 1], [2, 2], [3, 3]] rfl).2
      (by decide) [[1, 1], [2, 2]] [[3, 3]] (by decide) (by decide) 1 (by decide),
    ((claim10_two_classes_min_pvalue diffLenTTest diffLenTTest 0
      [[[1, 1], [2, 2], [3, 3]]] [5, 5, 5] [[1, 1], [2, 2], [3, 3]] rfl).1
      (by decide)).1⟩

end PValue

end RunEvaluator
